import Mathlib

/-!
Verification of the code-graph core (src/lib.rs, src/lang.rs, src/main.rs).

Shallow embedding conventions:
* A tree-sitter `Node` is embedded as `SNode`: kind tag, verbatim text of its
  byte span (`text` stands for `&code[node.byte_range()]`), 0-based start row
  (`row` stands for `node.start_position().row`), the parent's grammar name
  (`parentGrammar` stands for `node.parent().map(|p| p.grammar_name())`),
  the named-field table (`fields` stands for `child_by_field_name`), and the
  ordered children.  The tree is produced by the external parser, which the
  spec assumes correct, so the walks take the tree as input.
* `Uuid::new_v4()` is a fresh string drawn from an external source; it is
  embedded as an oracle `u : Nat → String` together with a counter threaded in
  creation order: the n-th uuid drawn by a run is `u n`.  An adapter method
  receives the uuid it would generate as its first argument; the callers
  advance the counter exactly when a record (hence a uuid) was produced.
* `CodeNodeIndex` is a transparent `usize` wrapper in the source and is
  embedded as a plain `Nat`.  The GUI-only `position: Pos2` field of
  `CodeNode` and the `get_lang` grammar handle are omitted: no claim and no
  walk reads them.  `Edge { from, to }` is embedded with field names
  `src`/`dst` because `from` is reserved in Lean.
-/

mutual
inductive SNode : Type where
  | node : String → String → Nat → Option String → SFields → SForest → SNode
  deriving DecidableEq
inductive SFields : Type where
  | fnil : SFields
  | fcons : String → SNode → SFields → SFields
  deriving DecidableEq
inductive SForest : Type where
  | fnil : SForest
  | fcons : SNode → SForest → SForest
  deriving DecidableEq
end

/-- Kind tag of the node (`node.kind()`). -/
def SNode.kind : SNode → String
  | .node k _ _ _ _ _ => k

/-- Verbatim source text of the node's byte span (`&code[node.byte_range()]`). -/
def SNode.text : SNode → String
  | .node _ t _ _ _ _ => t

/-- The 0-based start row (`node.start_position().row`). -/
def SNode.row : SNode → Nat
  | .node _ _ r _ _ _ => r

/-- Grammar name of the parent node, if any (`node.parent().map(grammar_name)`). -/
def SNode.parentGrammar : SNode → Option String
  | .node _ _ _ p _ _ => p

/-- Named-field table of the node. -/
def SNode.fields : SNode → SFields
  | .node _ _ _ _ f _ => f

/-- Ordered children of the node (`node.children(&mut node.walk())`). -/
def SNode.children : SNode → SForest
  | .node _ _ _ _ _ c => c

/-- Lookup in the named-field table: `node.child_by_field_name(name)`. -/
def findField : SFields → String → Option SNode
  | .fnil, _ => none
  | .fcons name node rest, target =>
      if name = target then some node else findField rest target

/-- CodeBlockType from src/lib.rs. -/
inductive CodeBlockType : Type where
  | FUNCTION | METHOD | STRUCT | IMPL | CLASS | CONST | NORMAL | CALL
  deriving DecidableEq

/-- CodeNode from src/lib.rs (the GUI-only `position` field is omitted). -/
structure CodeNode : Type where
  id : String
  label : String
  block : String
  file_location : Nat
  file_path : String
  level : Nat
  block_type : CodeBlockType
  deriving DecidableEq

/-- CodeNode::new from src/lib.rs: `file_path` starts empty. -/
def CodeNode.new (id label block : String) (file_location : Nat)
    (block_type : CodeBlockType) (level : Nat) : CodeNode :=
  { id := id, label := label, block := block, file_location := file_location,
    file_path := "", level := level, block_type := block_type }

/-- The Default impl of CodeNode from src/lib.rs. -/
def CodeNode.default : CodeNode :=
  { id := "", label := "", block := "", file_location := 0, file_path := "",
    level := 0, block_type := .NORMAL }

/-- Edge from src/lib.rs; the Rust field names are `from`/`to` (`from` is
reserved in Lean, so `src`/`dst` are used). -/
structure Edge : Type where
  src : Nat
  dst : Nat
  deriving DecidableEq

/-- Graph from src/lib.rs (nodes, edges, focus_node). -/
structure Graph : Type where
  nodes : List CodeNode
  edges : List Edge
  focus_node : Option Nat
  deriving DecidableEq

/-- Graph::new from src/lib.rs. -/
def Graph.new : Graph := { nodes := [], edges := [], focus_node := none }

/-- Graph::add_node from src/lib.rs: pushes the node and returns the index it
received (the length before the push). -/
def Graph.add_node (g : Graph) (node : CodeNode) : Graph × Nat :=
  ({ g with nodes := g.nodes ++ [node] }, g.nodes.length)

/-- Graph::add_edge from src/lib.rs. -/
def Graph.add_edge (g : Graph) (f t : Nat) : Graph :=
  { g with edges := g.edges ++ [{ src := f, dst := t }] }

/-- The enumerate loop inside Graph::node_index from src/lib.rs. -/
def node_index_go (node_id : String) : List CodeNode → Nat → Nat
  | [], _ => 0
  | n :: rest, index =>
      if n.id = node_id then index else node_index_go node_id rest (index + 1)

/-- Graph::node_index from src/lib.rs: first index whose node id matches,
`CodeNodeIndex(0)` when none does. -/
def Graph.node_index (g : Graph) (node_id : String) : Nat :=
  node_index_go node_id g.nodes 0

/-- Rust `str::split` with the one-character pattern `c`, on the character
list of the string: segments between occurrences of `c`; the empty string
yields one empty segment, so the iterator is never empty. -/
def splitChar (c : Char) : List Char → List (List Char)
  | [] => [[]]
  | x :: xs =>
      if x = c then [] :: splitChar c xs
      else
        match splitChar c xs with
        | [] => [[x]]
        | seg :: rest => (x :: seg) :: rest

/-- The label post-processing of CQuery::get_definition from src/lib.rs:
`output.as_str().split("(").next().unwrap_or("bad symbol")`. -/
def c_truncate_label (output : String) : String :=
  (((splitChar '(' output.data).map List.asString).head?).getD "bad symbol"

/-- The signature-concatenation loop shared by every get_definition: for each
child in order, stop at the first child of the terminator kind, otherwise push
the child's verbatim text followed by one space. -/
def sig_output (end_type : String) : SForest → String
  | .fnil => ""
  | .fcons c rest =>
      if c.kind = end_type then ""
      else c.text ++ " " ++ sig_output end_type rest

/-- The loop of JsQuery::get_definition over `variable_declarator` children
(src/lang.rs): for each child of that kind whose `name` field resolves,
push one space and the name's text. -/
def js_declarator_names : SForest → String
  | .fnil => ""
  | .fcons c rest =>
      (if c.kind = "variable_declarator" then
        match findField c.fields "name" with
        | some name => " " ++ name.text
        | none => ""
      else "") ++ js_declarator_names rest

/-- The SymbolQuery trait (src/lib.rs, src/lang.rs); `get_lang` is omitted
(it returns the external grammar handle, which no claim touches).  The first
`String` argument of each capability is the uuid the method would generate. -/
structure SymbolQuery : Type where
  get_call : String → SNode → Option CodeNode
  get_definition : String → SNode → Option CodeNode

/-- CQuery::get_call from src/lib.rs / src/lang.rs. -/
def CQuery.get_call (id : String) (node : SNode) : Option CodeNode :=
  if node.kind = "call_expression" then
    let block_text := node.text
    match findField node.fields "function" with
    | some fe =>
        match findField fe.fields "field" with
        | some fi =>
            some (CodeNode.new id fi.text block_text (fi.row + 1) .CALL 0)
        | none =>
            some (CodeNode.new id fe.text block_text (fe.row + 1) .CALL 0)
    | none => none
  else none

/-- The definition table of CQuery::get_definition. -/
def c_definition_list : List (String × String) :=
  [("function_definition", "compound_statement")]

/-- CQuery::get_definition from src/lib.rs / src/lang.rs, including the
truncation of the concatenated label at the first parenthesis. -/
def CQuery.get_definition (id : String) (node : SNode) : Option CodeNode :=
  match c_definition_list.find? (fun p => p.1 = node.kind) with
  | some (root_type, end_type) =>
      let output := sig_output end_type node.children
      let block_type : CodeBlockType :=
        if root_type = "function_definition" then .FUNCTION
        else if root_type = "struct_item" then .STRUCT
        else .NORMAL
      some (CodeNode.new id (c_truncate_label output) node.text
        (node.row + 1) block_type 0)
  | none => none

/-- JavaQuery::get_call from src/lib.rs / src/lang.rs. -/
def JavaQuery.get_call (id : String) (node : SNode) : Option CodeNode :=
  if node.kind = "method_invocation" then
    let block_text := node.text
    match findField node.fields "name" with
    | some fe =>
        some (CodeNode.new id fe.text block_text (fe.row + 1) .CALL 0)
    | none => none
  else none

/-- The definition table of JavaQuery::get_definition. -/
def java_definition_list : List (String × String) :=
  [("class_declaration", "class_body"),
   ("method_declaration", "formal_parameters"),
   ("interface_declaration", "interface_body")]

/-- JavaQuery::get_definition from src/lib.rs / src/lang.rs. -/
def JavaQuery.get_definition (id : String) (node : SNode) : Option CodeNode :=
  match java_definition_list.find? (fun p => p.1 = node.kind) with
  | some (root_type, end_type) =>
      let output := sig_output end_type node.children
      let block_type : CodeBlockType :=
        if root_type = "method_declaration" then .FUNCTION
        else if root_type = "class_declaration" then .CLASS
        else if root_type = "interface_declaration" then .CLASS
        else .NORMAL
      some (CodeNode.new id output node.text (node.row + 1) block_type 0)
  | none => none

/-- RustQuery::get_call from src/lib.rs / src/lang.rs. -/
def RustQuery.get_call (id : String) (node : SNode) : Option CodeNode :=
  if node.kind = "call_expression" then
    let block_text := node.text
    match findField node.fields "function" with
    | some fe =>
        match findField fe.fields "field" with
        | some fi =>
            some (CodeNode.new id fi.text block_text (fi.row + 1) .CALL 0)
        | none =>
            some (CodeNode.new id fe.text block_text (fe.row + 1) .CALL 0)
    | none => none
  else none

/-- The definition table of RustQuery::get_definition. -/
def rust_definition_list : List (String × String) :=
  [("function_item", "parameters"),
   ("impl_item", "declaration_list"),
   ("struct_item", "field_declaration_list"),
   ("trait_item", "declaration_list"),
   ("function_signature_item", "parameters")]

/-- RustQuery::get_definition from src/lib.rs / src/lang.rs. -/
def RustQuery.get_definition (id : String) (node : SNode) : Option CodeNode :=
  match rust_definition_list.find? (fun p => p.1 = node.kind) with
  | some (root_type, end_type) =>
      let output := sig_output end_type node.children
      let block_type : CodeBlockType :=
        if root_type = "function_item" then .FUNCTION
        else if root_type = "struct_item" then .STRUCT
        else if root_type = "function_signature_item" then .FUNCTION
        else if root_type = "trait_item" then .CLASS
        else if root_type = "impl_item" then .CLASS
        else .NORMAL
      some (CodeNode.new id output node.text (node.row + 1) block_type 0)
  | none => none

/-- JsQuery::get_call from src/lang.rs (the member field is `property`). -/
def JsQuery.get_call (id : String) (node : SNode) : Option CodeNode :=
  if node.kind = "call_expression" then
    let block_text := node.text
    match findField node.fields "function" with
    | some fe =>
        match findField fe.fields "property" with
        | some fi =>
            some (CodeNode.new id fi.text block_text (fi.row + 1) .CALL 0)
        | none =>
            some (CodeNode.new id fe.text block_text (fe.row + 1) .CALL 0)
    | none => none
  else none

/-- The definition table of JsQuery::get_definition. -/
def js_definition_list : List (String × String) :=
  [("function_declaration", "formal_parameters"),
   ("class_declaration", "class_body"),
   ("method_definition", "formal_parameters")]

/-- JsQuery::get_definition from src/lang.rs, including the extra
`lexical_declaration` rule guarded by the parent being the `program` root. -/
def JsQuery.get_definition (id : String) (node : SNode) : Option CodeNode :=
  match js_definition_list.find? (fun p => p.1 = node.kind) with
  | some (root_type, end_type) =>
      let output := sig_output end_type node.children
      let block_type : CodeBlockType :=
        if root_type = "function_declaration" then .FUNCTION
        else if root_type = "method_definition" then .FUNCTION
        else if root_type = "class_declaration" then .CLASS
        else .NORMAL
      some (CodeNode.new id output node.text (node.row + 1) block_type 0)
  | none =>
      if node.kind = "lexical_declaration" then
        match node.parentGrammar with
        | some pg =>
            if pg = "program" then
              let kind_part :=
                match findField node.fields "kind" with
                | some kind_node => kind_node.text
                | none => ""
              let output := kind_part ++ js_declarator_names node.children
              some (CodeNode.new id output node.text (node.row + 1) .CONST 0)
            else none
        | none => none
      else none

/-- The RustQuery adapter bundled behind the SymbolQuery capability set. -/
def RustQuery : SymbolQuery :=
  { get_call := RustQuery.get_call, get_definition := RustQuery.get_definition }

/-- The CQuery adapter bundled behind the SymbolQuery capability set. -/
def CQuery : SymbolQuery :=
  { get_call := CQuery.get_call, get_definition := CQuery.get_definition }

/-- The JavaQuery adapter bundled behind the SymbolQuery capability set. -/
def JavaQuery : SymbolQuery :=
  { get_call := JavaQuery.get_call, get_definition := JavaQuery.get_definition }

/-- The JsQuery adapter bundled behind the SymbolQuery capability set. -/
def JsQuery : SymbolQuery :=
  { get_call := JsQuery.get_call, get_definition := JsQuery.get_definition }

/-- valid_file_extention from src/lib.rs. -/
def valid_file_extention (extension : String) : Bool :=
  ["rs", "c", "h", "java"].contains extension

/-- get_symbol_query from src/lib.rs: the Rust source is a `match` on the
extension whose catch-all arm returns `Box::new(RustQuery)`. -/
def get_symbol_query (extention : String) : SymbolQuery :=
  if extention = "rs" then RustQuery
  else if extention = "java" then JavaQuery
  else if extention = "c" then CQuery
  else if extention = "h" then CQuery
  else RustQuery

mutual
/-- recursion_call from src/lib.rs: push the recognized call record of the
current node (if any), then every child's records in order. -/
def recursion_call (u : Nat → String) (n : SNode) (path : String)
    (q : SymbolQuery) (ctr : Nat) : List CodeNode × Nat :=
  match n with
  | .node k t r p fl c =>
    let step : List CodeNode × Nat :=
      match q.get_call (u ctr) (.node k t r p fl c) with
      | some cn => ([{ cn with file_path := path }], ctr + 1)
      | none => ([], ctr)
    let rest := recursion_call_forest u c path q step.2
    (step.1 ++ rest.1, rest.2)

/-- The `for child in node.children` loop of recursion_call. -/
def recursion_call_forest (u : Nat → String) (f : SForest) (path : String)
    (q : SymbolQuery) (ctr : Nat) : List CodeNode × Nat :=
  match f with
  | .fnil => ([], ctr)
  | .fcons c rest =>
      let r1 := recursion_call u c path q ctr
      let r2 := recursion_call_forest u rest path q r1.2
      (r1.1 ++ r2.1, r2.2)
end

/-- fetch_calls from src/lib.rs; the parse step is the external provider, so
the already-parsed root node is taken as input. -/
def fetch_calls (u : Nat → String) (path : String) (root_node : SNode)
    (q : SymbolQuery) (ctr : Nat) : List CodeNode × Nat :=
  recursion_call u root_node path q ctr

mutual
/-- recursion_outline from src/lib.rs: if the adapter recognizes a definition,
stamp file_path and level, append it, add the edge from the current parent and
make the new index the parent for the children; either way recurse into the
children with `level + 1`. -/
def recursion_outline (u : Nat → String) (n : SNode) (parent_id : Nat)
    (path : String) (level : Nat) (q : SymbolQuery) (g : Graph) (ctr : Nat) :
    Graph × Nat :=
  match n with
  | .node k t r p fl c =>
    match q.get_definition (u ctr) (.node k t r p fl c) with
    | some cn =>
        let cn := { cn with file_path := path, level := level }
        let a := g.add_node cn
        let g2 := a.1.add_edge parent_id a.2
        recursion_outline_forest u c a.2 path (level + 1) q g2 (ctr + 1)
    | none =>
        recursion_outline_forest u c parent_id path (level + 1) q g ctr

/-- The `for child in node.children` loop of recursion_outline. -/
def recursion_outline_forest (u : Nat → String) (f : SForest) (parent_id : Nat)
    (path : String) (level : Nat) (q : SymbolQuery) (g : Graph) (ctr : Nat) :
    Graph × Nat :=
  match f with
  | .fnil => (g, ctr)
  | .fcons c rest =>
      let r1 := recursion_outline u c parent_id path level q g ctr
      recursion_outline_forest u rest parent_id path level q r1.1 r1.2
end

/-- fetch_symbols from src/lib.rs: seed the graph with the synthetic root
record (label = path, block = whole code, line 0, NORMAL, level 0) at index 0,
then walk the tree from parent index 0 and level 0. -/
def fetch_symbols (u : Nat → String) (path code : String) (root_node : SNode)
    (q : SymbolQuery) (g : Graph) (ctr : Nat) : Graph × Nat :=
  let root_code_node := CodeNode.new (u ctr) path code 0 .NORMAL 0
  let r := g.add_node root_code_node
  recursion_outline u root_node 0 path 0 q r.1 (ctr + 1)

/-- The extension gate of MyApp::side_panel from src/main.rs: a clicked file
is parsed into a fresh graph only when valid_file_extention accepts its
extension; otherwise an "unsupported file type" dialog is shown and no graph
is produced (embedded as `none`). -/
def side_panel_open (u : Nat → String) (ext path code : String)
    (root_node : SNode) : Option Graph :=
  if valid_file_extention ext then
    some (fetch_symbols u path code root_node (get_symbol_query ext)
      Graph.new 0).1
  else none

/-- Erases the run-dependent uuid of a record; everything else is kept. -/
def CodeNode.eraseId (c : CodeNode) : CodeNode := { c with id := "" }

mutual
/-- Pre-order listing of the nodes of a tree. -/
def preorder (n : SNode) : List SNode :=
  match n with
  | .node k t r p fl c => .node k t r p fl c :: preorder_forest c

/-- Pre-order listing of the nodes of a forest. -/
def preorder_forest : SForest → List SNode
  | .fnil => []
  | .fcons c rest => preorder c ++ preorder_forest rest
end

mutual
/-- Written from the spec's words (spec sections 3 and 4.2), for comparison
with the implementation: `enclosing` is the handle of the nearest enclosing
recognized definition (the root handle if none encloses) and `next` the
handle the next appended record will receive; a recognized definition gets
one incoming edge from `enclosing` and becomes the enclosing definition for
its subtree. -/
def nearest_enclosing_edges (q : SymbolQuery) (n : SNode)
    (enclosing next : Nat) : List (Nat × Nat) × Nat :=
  match n with
  | .node k t r p fl c =>
    if (q.get_definition "" (.node k t r p fl c)).isSome then
      let r1 := nearest_enclosing_forest q c next (next + 1)
      ((enclosing, next) :: r1.1, r1.2)
    else
      nearest_enclosing_forest q c enclosing next

/-- Forest version of `nearest_enclosing_edges`. -/
def nearest_enclosing_forest (q : SymbolQuery) (f : SForest)
    (enclosing next : Nat) : List (Nat × Nat) × Nat :=
  match f with
  | .fnil => ([], next)
  | .fcons c rest =>
      let r1 := nearest_enclosing_edges q c enclosing next
      let r2 := nearest_enclosing_forest q rest enclosing r1.2
      (r1.1 ++ r2.1, r2.2)
end

/-- An example uuid oracle: the n-th fresh uuid of a run is `uuid<n>`. -/
def uuid_oracle (n : Nat) : String := "uuid" ++ toString n

/-! Concrete syntax trees used by counterexamples and witnesses.  Each mirrors
the tree that tree-sitter produces for the quoted source text. -/

/-- Tree of the Rust input `fn outer() { fn inner() { } }`: the inner
function item sits under the outer function's `block` node, which no rule of
RustQuery::get_definition matches. -/
def c1_inner_fn : SNode :=
  .node "function_item" "fn inner() \x7b \x7d" 0 (some "block")
    (.fcons "name" (.node "identifier" "inner" 0 (some "function_item") .fnil .fnil)
      (.fcons "parameters" (.node "parameters" "()" 0 (some "function_item") .fnil .fnil)
        .fnil))
    (.fcons (.node "fn" "fn" 0 (some "function_item") .fnil .fnil)
      (.fcons (.node "identifier" "inner" 0 (some "function_item") .fnil .fnil)
        (.fcons (.node "parameters" "()" 0 (some "function_item") .fnil .fnil)
          (.fcons (.node "block" "\x7b \x7d" 0 (some "function_item") .fnil .fnil)
            .fnil))))

/-- The `block` body of the outer function of `c1_tree`. -/
def c1_outer_block : SNode :=
  .node "block" "\x7b fn inner() \x7b \x7d \x7d" 0 (some "function_item")
    .fnil
    (.fcons (.node "\x7b" "\x7b" 0 (some "block") .fnil .fnil)
      (.fcons c1_inner_fn
        (.fcons (.node "\x7d" "\x7d" 0 (some "block") .fnil .fnil)
          .fnil)))

/-- Root (`source_file`) of the Rust input `fn outer() { fn inner() { } }`. -/
def c1_tree : SNode :=
  .node "source_file" "fn outer() \x7b fn inner() \x7b \x7d \x7d" 0 none
    .fnil
    (.fcons
      (.node "function_item" "fn outer() \x7b fn inner() \x7b \x7d \x7d" 0
        (some "source_file")
        (.fcons "name" (.node "identifier" "outer" 0 (some "function_item") .fnil .fnil)
          (.fcons "parameters" (.node "parameters" "()" 0 (some "function_item") .fnil .fnil)
            (.fcons "body" c1_outer_block .fnil)))
        (.fcons (.node "fn" "fn" 0 (some "function_item") .fnil .fnil)
          (.fcons (.node "identifier" "outer" 0 (some "function_item") .fnil .fnil)
            (.fcons (.node "parameters" "()" 0 (some "function_item") .fnil .fnil)
              (.fcons c1_outer_block .fnil)))))
      .fnil)

/-- A `function_definition` whose concatenated signature text begins with a
parenthesis (C with a parenthesized declarator and implicit return type:
`(add)(int a,int b){}`), so truncation at `(` yields the empty string. -/
def c3_node : SNode :=
  .node "function_definition" "(add)(int a,int b)\x7b\x7d" 0
    (some "translation_unit")
    .fnil
    (.fcons
      (.node "function_declarator" "(add)(int a,int b)" 0
        (some "function_definition") .fnil .fnil)
      (.fcons
        (.node "compound_statement" "\x7b\x7d" 0 (some "function_definition")
          .fnil .fnil)
        .fnil))

/-- The `parameter_list` of the C input `int add(int a,int b){return a+b;}`. -/
def c4_param_list : SNode :=
  .node "parameter_list" "(int a,int b)" 0 (some "function_declarator")
    .fnil
    (.fcons (.node "(" "(" 0 (some "parameter_list") .fnil .fnil)
      (.fcons (.node "parameter_declaration" "int a" 0 (some "parameter_list") .fnil .fnil)
        (.fcons (.node "," "," 0 (some "parameter_list") .fnil .fnil)
          (.fcons (.node "parameter_declaration" "int b" 0 (some "parameter_list") .fnil .fnil)
            (.fcons (.node ")" ")" 0 (some "parameter_list") .fnil .fnil)
              .fnil)))))

/-- The `function_declarator` of the C input `int add(int a,int b){...}`. -/
def c4_declarator : SNode :=
  .node "function_declarator" "add(int a,int b)" 0 (some "function_definition")
    (.fcons "declarator" (.node "identifier" "add" 0 (some "function_declarator") .fnil .fnil)
      (.fcons "parameters" c4_param_list .fnil))
    (.fcons (.node "identifier" "add" 0 (some "function_declarator") .fnil .fnil)
      (.fcons c4_param_list .fnil))

/-- The `compound_statement` body of the C input. -/
def c4_body : SNode :=
  .node "compound_statement" "\x7breturn a+b;\x7d" 0 (some "function_definition")
    .fnil
    (.fcons (.node "\x7b" "\x7b" 0 (some "compound_statement") .fnil .fnil)
      (.fcons (.node "return_statement" "return a+b;" 0 (some "compound_statement") .fnil .fnil)
        (.fcons (.node "\x7d" "\x7d" 0 (some "compound_statement") .fnil .fnil)
          .fnil)))

/-- Root (`translation_unit`) of the C input
`int add(int a,int b){return a+b;}`, used to exercise the outline builder. -/
def c4_tree : SNode :=
  .node "translation_unit" "int add(int a,int b)\x7breturn a+b;\x7d" 0 none
    .fnil
    (.fcons
      (.node "function_definition" "int add(int a,int b)\x7breturn a+b;\x7d" 0
        (some "translation_unit")
        (.fcons "type" (.node "primitive_type" "int" 0 (some "function_definition") .fnil .fnil)
          (.fcons "declarator" c4_declarator
            (.fcons "body" c4_body .fnil)))
        (.fcons (.node "primitive_type" "int" 0 (some "function_definition") .fnil .fnil)
          (.fcons c4_declarator
            (.fcons c4_body .fnil))))
      .fnil)

/-- The same C tree under a distinct name, for the concrete Function-label
case `int add(int a,int b){return a+b;}`. -/
def c7_tree : SNode := c4_tree

/-- Inner call `bar()` of the Java input `foo(bar())`. -/
def c5_inner_call : SNode :=
  .node "method_invocation" "bar()" 0 (some "argument_list")
    (.fcons "name" (.node "identifier" "bar" 0 (some "method_invocation") .fnil .fnil)
      (.fcons "arguments" (.node "argument_list" "()" 0 (some "method_invocation") .fnil .fnil)
        .fnil))
    (.fcons (.node "identifier" "bar" 0 (some "method_invocation") .fnil .fnil)
      (.fcons (.node "argument_list" "()" 0 (some "method_invocation") .fnil .fnil)
        .fnil))

/-- Tree of the Java expression `foo(bar())`: a call whose argument list holds
a further call, so the collector must keep recursing below a match. -/
def c5_tree : SNode :=
  .node "method_invocation" "foo(bar())" 0 none
    (.fcons "name" (.node "identifier" "foo" 0 (some "method_invocation") .fnil .fnil)
      (.fcons "arguments"
        (.node "argument_list" "(bar())" 0 (some "method_invocation")
          .fnil (.fcons c5_inner_call .fnil))
        .fnil))
    (.fcons (.node "identifier" "foo" 0 (some "method_invocation") .fnil .fnil)
      (.fcons
        (.node "argument_list" "(bar())" 0 (some "method_invocation")
          .fnil (.fcons c5_inner_call .fnil))
        .fnil))

/-- The callee sub-expression `obj.method` of the Rust call
`obj.method(1,2)`, exposing the `field` sub-field `method`. -/
def c6_callee : SNode :=
  .node "field_expression" "obj.method" 0 (some "call_expression")
    (.fcons "value" (.node "identifier" "obj" 0 (some "field_expression") .fnil .fnil)
      (.fcons "field" (.node "field_identifier" "method" 0 (some "field_expression") .fnil .fnil)
        .fnil))
    (.fcons (.node "identifier" "obj" 0 (some "field_expression") .fnil .fnil)
      (.fcons (.node "." "." 0 (some "field_expression") .fnil .fnil)
        (.fcons (.node "field_identifier" "method" 0 (some "field_expression") .fnil .fnil)
          .fnil)))

/-- The Rust call `obj.method(1,2)` as a `call_expression` node. -/
def c6_call : SNode :=
  .node "call_expression" "obj.method(1,2)" 0 none
    (.fcons "function" c6_callee
      (.fcons "arguments" (.node "arguments" "(1,2)" 0 (some "call_expression") .fnil .fnil)
        .fnil))
    (.fcons c6_callee
      (.fcons (.node "arguments" "(1,2)" 0 (some "call_expression") .fnil .fnil)
        .fnil))

/-- The Rust call `foo(1,2)`: the callee is a bare identifier without a
`field` sub-field. -/
def c6_plain_call : SNode :=
  .node "call_expression" "foo(1,2)" 0 none
    (.fcons "function" (.node "identifier" "foo" 0 (some "call_expression") .fnil .fnil)
      (.fcons "arguments" (.node "arguments" "(1,2)" 0 (some "call_expression") .fnil .fnil)
        .fnil))
    (.fcons (.node "identifier" "foo" 0 (some "call_expression") .fnil .fnil)
      (.fcons (.node "arguments" "(1,2)" 0 (some "call_expression") .fnil .fnil)
        .fnil))

/-- One `variable_declarator` (`a = 1`) of the JS input. -/
def c8_decl_a : SNode :=
  .node "variable_declarator" "a = 1" 0 (some "lexical_declaration")
    (.fcons "name" (.node "identifier" "a" 0 (some "variable_declarator") .fnil .fnil)
      (.fcons "value" (.node "number" "1" 0 (some "variable_declarator") .fnil .fnil)
        .fnil))
    (.fcons (.node "identifier" "a" 0 (some "variable_declarator") .fnil .fnil)
      (.fcons (.node "=" "=" 0 (some "variable_declarator") .fnil .fnil)
        (.fcons (.node "number" "1" 0 (some "variable_declarator") .fnil .fnil)
          .fnil)))

/-- One `variable_declarator` (`b = 2`) of the JS input. -/
def c8_decl_b : SNode :=
  .node "variable_declarator" "b = 2" 0 (some "lexical_declaration")
    (.fcons "name" (.node "identifier" "b" 0 (some "variable_declarator") .fnil .fnil)
      (.fcons "value" (.node "number" "2" 0 (some "variable_declarator") .fnil .fnil)
        .fnil))
    (.fcons (.node "identifier" "b" 0 (some "variable_declarator") .fnil .fnil)
      (.fcons (.node "=" "=" 0 (some "variable_declarator") .fnil .fnil)
        (.fcons (.node "number" "2" 0 (some "variable_declarator") .fnil .fnil)
          .fnil)))

/-- The top-level `lexical_declaration` of the JS input
`const a = 1, b = 2;` (its parent is the `program` root). -/
def c8_lexical : SNode :=
  .node "lexical_declaration" "const a = 1, b = 2;" 0 (some "program")
    (.fcons "kind" (.node "const" "const" 0 (some "lexical_declaration") .fnil .fnil)
      .fnil)
    (.fcons (.node "const" "const" 0 (some "lexical_declaration") .fnil .fnil)
      (.fcons c8_decl_a
        (.fcons (.node "," "," 0 (some "lexical_declaration") .fnil .fnil)
          (.fcons c8_decl_b
            (.fcons (.node ";" ";" 0 (some "lexical_declaration") .fnil .fnil)
              .fnil)))))

/-- Root (`program`) of the JS input `const a = 1, b = 2;`. -/
def c8_tree : SNode :=
  .node "program" "const a = 1, b = 2;" 0 none .fnil (.fcons c8_lexical .fnil)

/-- The same `lexical_declaration`, but nested inside a statement block
instead of sitting at the `program` root. -/
def c8_nested_lexical : SNode :=
  .node "lexical_declaration" "const a = 1, b = 2;" 0 (some "statement_block")
    (.fcons "kind" (.node "const" "const" 0 (some "lexical_declaration") .fnil .fnil)
      .fnil)
    (.fcons (.node "const" "const" 0 (some "lexical_declaration") .fnil .fnil)
      (.fcons c8_decl_a
        (.fcons (.node "," "," 0 (some "lexical_declaration") .fnil .fnil)
          (.fcons c8_decl_b
            (.fcons (.node ";" ";" 0 (some "lexical_declaration") .fnil .fnil)
              .fnil)))))

/-- Root of an empty C file: a bare `translation_unit` with no children. -/
def c9_tree : SNode := .node "translation_unit" "" 0 none .fnil .fnil

/-- A concrete graph with two records, for the unknown-id lookup. -/
def c10_graph : Graph :=
  { nodes :=
      [CodeNode.new "aa" "root" "code" 0 .NORMAL 0,
       CodeNode.new "bb" "fn f " "fn f()\x7b\x7d" 1 .FUNCTION 1],
    edges := [{ src := 0, dst := 1 }],
    focus_node := none }

/-- The rooted-tree invariant the spec states for the symbol graph: every
edge points strictly forward (hence no cycles), the root record at index 0
has no incoming edge, and every other record has exactly one. -/
def rooted_tree_graph (g : Graph) : Prop :=
  (∀ e ∈ g.edges, e.src < e.dst ∧ e.dst < g.nodes.length) ∧
  (g.edges.filter (fun e => e.dst == 0)).length = 0 ∧
  (∀ i, 1 ≤ i → i < g.nodes.length → (g.edges.filter (fun e => e.dst == i)).length = 1)

/-- Postcondition of one outline-walk step starting from graph `g` with
current parent handle `parent_id` and level argument `level`, ending in
graph `g'`: the walk only appends; every new edge leaves the entry parent or
a new record and points strictly forward to a new record; every new record
receives exactly one incoming edge; levels increase strictly along new edges
(provided the entry parent's record sits below the entry level); and, when
recognition does not depend on the drawn uuid, the new edges are exactly the
nearest-enclosing-definition edges `spec` predicted by the specification. -/
def outline_post (q : SymbolQuery) (parent_id level : Nat) (g g' : Graph)
    (spec : List (Nat × Nat) × Nat) : Prop :=
  g.nodes.length ≤ g'.nodes.length ∧
  (∀ i, i < g.nodes.length →
    g'.nodes.getD i CodeNode.default = g.nodes.getD i CodeNode.default) ∧
  ∃ es, g'.edges = g.edges ++ es ∧
    (∀ e ∈ es, (e.src = parent_id ∨ g.nodes.length ≤ e.src) ∧ e.src < e.dst ∧
      g.nodes.length ≤ e.dst ∧ e.dst < g'.nodes.length) ∧
    (∀ i, g.nodes.length ≤ i → i < g'.nodes.length →
      (es.filter (fun e => e.dst == i)).length = 1) ∧
    ((g.nodes.getD parent_id CodeNode.default).level < level →
      ∀ e ∈ es, (g'.nodes.getD e.src CodeNode.default).level
        < (g'.nodes.getD e.dst CodeNode.default).level) ∧
    ((∀ i j m, (q.get_definition i m).isSome = (q.get_definition j m).isSome) →
      es.map (fun e => (e.src, e.dst)) = spec.1 ∧ spec.2 = g'.nodes.length)

/-! Helper lemmas. -/

/-- Rust `split` never yields an empty iterator. -/
theorem splitChar_ne_nil (c : Char) (l : List Char) : splitChar c l ≠ [] := by
  induction l with
  | nil => simp [splitChar]
  | cons x xs ih =>
      simp only [splitChar]
      split
      · simp
      · cases h : splitChar c xs with
        | nil => simp
        | cons seg rest => simp

/-- The first segment of Rust `split` is the prefix before the first
occurrence of the pattern character. -/
theorem splitChar_head (c : Char) (l : List Char) :
    (splitChar c l).head? = some (l.takeWhile (fun x => x != c)) := by
  induction l with
  | nil => simp [splitChar]
  | cons x xs ih =>
      simp only [splitChar]
      by_cases hx : x = c
      · simp [hx]
      · cases h : splitChar c xs with
        | nil => exact absurd h (splitChar_ne_nil c xs)
        | cons seg rest =>
            rw [h] at ih
            simp only [List.head?_cons, Option.some.injEq] at ih
            simp [hx, ih]

/-- The `unwrap_or("bad symbol")` fallback is unreachable: the truncated
label is always the (possibly empty) prefix before the first parenthesis. -/
theorem c_truncate_label_eq (s : String) :
    c_truncate_label s = (s.data.takeWhile (fun x => x != '(')).asString := by
  unfold c_truncate_label
  rw [List.head?_map, splitChar_head]
  rfl

/-- The lookup loop of Graph::node_index falls through to 0 when no id
matches. -/
theorem node_index_go_eq_zero (node_id : String) (l : List CodeNode)
    (start : Nat) (h : ∀ n ∈ l, n.id ≠ node_id) :
    node_index_go node_id l start = 0 := by
  induction l generalizing start with
  | nil => rfl
  | cons n rest ih =>
      simp only [node_index_go]
      rw [if_neg (h n (by simp))]
      exact ih (start + 1) (fun m hm => h m (by simp [hm]))

/-- Whether CQuery::get_definition recognizes a node does not depend on the
uuid it would stamp on the record. -/
theorem cquery_definition_isSome_indep (i j : String) (m : SNode) :
    (CQuery.get_definition i m).isSome = (CQuery.get_definition j m).isSome := by
  cases h : c_definition_list.find? (fun p => p.1 = m.kind) with
  | none => simp [CQuery.get_definition, h]
  | some pr => cases pr with
    | mk rt et => simp [CQuery.get_definition, h]

/-- JavaQuery::get_call produces the same record, apart from the stamped
uuid, whichever uuid is drawn. -/
theorem java_call_eraseId_indep (i j : String) (m : SNode) :
    (JavaQuery.get_call i m).map CodeNode.eraseId
      = (JavaQuery.get_call j m).map CodeNode.eraseId := by
  unfold JavaQuery.get_call
  split
  · cases h : findField m.fields "name" with
    | none => simp
    | some fe => simp [CodeNode.eraseId, CodeNode.new]
  · simp

/-! Claim theorems. -/

/-- C2, counterexample: the extension `py` has no registered adapter and
valid_file_extention rejects it, yet get_symbol_query silently returns the
Rust adapter (the adapter registered for `rs`) instead of an error. -/
theorem C2_counterexample :
    valid_file_extention "py" = false ∧
    get_symbol_query "py" = RustQuery ∧
    get_symbol_query "rs" = RustQuery :=
  ⟨by decide, rfl, rfl⟩

/-- C2, amended: valid_file_extention accepts exactly rs/c/h/java, and the
GUI caller (side_panel) uses it to reject an unsupported extension before
any tree construction, producing no graph; but adapter selection itself
(get_symbol_query) silently falls back to the Rust adapter on every
unrecognized extension rather than rejecting it. -/
theorem C2_amended_selection :
    (∀ ext, valid_file_extention ext = true ↔ ext ∈ (["rs", "c", "h", "java"] : List String)) ∧
    (∀ ext, valid_file_extention ext = false → get_symbol_query ext = RustQuery) ∧
    (∀ u ext path code root_node, valid_file_extention ext = false →
      side_panel_open u ext path code root_node = none) := by
  refine ⟨?_, ?_, ?_⟩
  · intro ext
    simp [valid_file_extention, List.contains]
  · intro ext h
    unfold get_symbol_query
    split_ifs with h1 h2 h3 h4
    · subst h1; exact absurd h (by decide)
    · subst h2; exact absurd h (by decide)
    · subst h3; exact absurd h (by decide)
    · subst h4; exact absurd h (by decide)
    · rfl
  · intro u ext path code root_node h
    simp [side_panel_open, h]

/-- C2, witness: the amended statement instantiated at the unregistered
extension `py`. -/
theorem C2_amended_selection_witness :
    (valid_file_extention "py" = true ↔ "py" ∈ (["rs", "c", "h", "java"] : List String)) ∧
    get_symbol_query "py" = RustQuery ∧
    side_panel_open uuid_oracle "py" "a.py" "x = 1" c9_tree = none :=
  ⟨C2_amended_selection.1 "py",
   C2_amended_selection.2.1 "py" (by decide),
   C2_amended_selection.2.2 uuid_oracle "py" "a.py" "x = 1" c9_tree (by decide)⟩

/-- C3, counterexample: a C `function_definition` whose concatenated
signature text begins with a parenthesis produces a Function record whose
label is the empty string, not the literal placeholder `bad symbol`. -/
theorem C3_counterexample :
    (sig_output "compound_statement" c3_node.children).data.head? = some '(' ∧
    (CQuery.get_definition "id0" c3_node).map CodeNode.label = some "" ∧
    (CQuery.get_definition "id0" c3_node).map CodeNode.label ≠ some "bad symbol" := by
  decide

/-- C3, amended: the label of every record produced by CQuery::get_definition
is the (possibly empty) prefix of the concatenated child text before the
first parenthesis; the `bad symbol` fallback of `unwrap_or` is unreachable
because Rust `split` always yields a first (possibly empty) piece, so a
signature text that begins with `(` yields the empty label. -/
theorem C3_amended_label (id : String) (n : SNode) (r : CodeNode)
    (h : CQuery.get_definition id n = some r) :
    r.label
      = ((sig_output "compound_statement" n.children).data.takeWhile
          (fun x => x != '(')).asString ∧
    ((sig_output "compound_statement" n.children).data.head? = some '(' →
      r.label = "") := by
  have hlabel : r.label
      = ((sig_output "compound_statement" n.children).data.takeWhile
          (fun x => x != '(')).asString := by
    unfold CQuery.get_definition at h
    cases hf : c_definition_list.find? (fun p => p.1 = n.kind) with
    | none => rw [hf] at h; exact absurd h (by simp)
    | some pr =>
        have hpr : pr = ("function_definition", "compound_statement") := by
          have := List.mem_of_find?_eq_some hf
          simpa [c_definition_list] using this
        rw [hf, hpr] at h
        simp only [Option.some.injEq] at h
        rw [← h]
        simpa [CodeNode.new] using c_truncate_label_eq
          (sig_output "compound_statement" n.children)
  refine ⟨hlabel, fun hhead => ?_⟩
  rw [hlabel]
  cases hdata : (sig_output "compound_statement" n.children).data with
  | nil => simp at hdata hhead; rw [hdata] at hhead; exact absurd hhead (by simp)
  | cons x xs =>
      rw [hdata] at hhead
      simp only [List.head?_cons, Option.some.injEq] at hhead
      subst hhead
      simp [List.takeWhile_cons]
      rfl

/-- C3, witness: the amended statement at the concrete declarator-first
definition `(add)(int a,int b){}`. -/
theorem C3_amended_label_witness :
    (CodeNode.new "id0" "" "(add)(int a,int b)\x7b\x7d" 1 .FUNCTION 0).label
      = ((sig_output "compound_statement" c3_node.children).data.takeWhile
          (fun x => x != '(')).asString :=
  (C3_amended_label "id0" c3_node
    (CodeNode.new "id0" "" "(add)(int a,int b)\x7b\x7d" 1 .FUNCTION 0)
    (by decide)).1

/-- C6: for a node of the call-expression kind, the Rust/C adapters label the
call with the `field` sub-field of the callee when it exposes one (member
call), otherwise with the callee's own text, taking the source line from the
labelling node; the JS adapter does the same with the `property` sub-field;
and when no callee sub-expression resolves, no record is returned. -/
theorem C6_get_call_label (id : String) (n : SNode)
    (hk : n.kind = "call_expression") :
    (findField n.fields "function" = none →
      RustQuery.get_call id n = none ∧ CQuery.get_call id n = none ∧
      JsQuery.get_call id n = none) ∧
    (∀ fe, findField n.fields "function" = some fe →
      RustQuery.get_call id n
        = some (match findField fe.fields "field" with
          | some fi => CodeNode.new id fi.text n.text (fi.row + 1) .CALL 0
          | none => CodeNode.new id fe.text n.text (fe.row + 1) .CALL 0) ∧
      CQuery.get_call id n
        = some (match findField fe.fields "field" with
          | some fi => CodeNode.new id fi.text n.text (fi.row + 1) .CALL 0
          | none => CodeNode.new id fe.text n.text (fe.row + 1) .CALL 0) ∧
      JsQuery.get_call id n
        = some (match findField fe.fields "property" with
          | some fi => CodeNode.new id fi.text n.text (fi.row + 1) .CALL 0
          | none => CodeNode.new id fe.text n.text (fe.row + 1) .CALL 0)) := by
  constructor
  · intro hf
    simp [RustQuery.get_call, CQuery.get_call, JsQuery.get_call, hk, hf]
  · intro fe hf
    refine ⟨?_, ?_, ?_⟩
    · simp only [RustQuery.get_call, hk, if_true, hf]
      cases h2 : findField fe.fields "field" <;> simp [h2]
    · simp only [CQuery.get_call, hk, if_true, hf]
      cases h2 : findField fe.fields "field" <;> simp [h2]
    · simp only [JsQuery.get_call, hk, if_true, hf]
      cases h2 : findField fe.fields "property" <;> simp [h2]

/-- C6, witness: `obj.method(1,2)` is labelled `method` and `foo(1,2)` is
labelled `foo` by RustQuery::get_call. -/
theorem C6_get_call_label_witness :
    RustQuery.get_call "i" c6_call
      = some (CodeNode.new "i" "method" "obj.method(1,2)" 1 .CALL 0) ∧
    RustQuery.get_call "i" c6_plain_call
      = some (CodeNode.new "i" "foo" "foo(1,2)" 1 .CALL 0) := by
  have h1 := (C6_get_call_label "i" c6_call rfl).2 c6_callee (by decide)
  have h2 := (C6_get_call_label "i" c6_plain_call rfl).2
    (.node "identifier" "foo" 0 (some "call_expression") .fnil .fnil) (by decide)
  exact ⟨h1.1.trans (by decide), h2.1.trans (by decide)⟩

/-- C7: the C input `int add(int a,int b){return a+b;}` yields, besides the
synthetic root, exactly one record: a Function record labelled `int add`. -/
theorem C7_c_function_label :
    (fetch_symbols uuid_oracle "test.c" "int add(int a,int b)\x7breturn a+b;\x7d"
        c7_tree CQuery Graph.new 0).1.nodes.map CodeNode.label
      = ["test.c", "int add"] ∧
    (fetch_symbols uuid_oracle "test.c" "int add(int a,int b)\x7breturn a+b;\x7d"
        c7_tree CQuery Graph.new 0).1.nodes.map CodeNode.block_type
      = [.NORMAL, .FUNCTION] ∧
    (fetch_symbols uuid_oracle "test.c" "int add(int a,int b)\x7breturn a+b;\x7d"
        c7_tree CQuery Graph.new 0).1.edges = [{ src := 0, dst := 1 }] := by
  decide

/-- C8: a JS `lexical_declaration` is recognized only when its parent is the
`program` root, and the top-level input `const a = 1, b = 2;` yields exactly
one Const record labelled `const a b`. -/
theorem C8_js_const_label :
    (∀ id n, n.kind = "lexical_declaration" → n.parentGrammar ≠ some "program" →
      JsQuery.get_definition id n = none) ∧
    (fetch_symbols uuid_oracle "t.js" "const a = 1, b = 2;" c8_tree JsQuery
        Graph.new 0).1.nodes.map CodeNode.label = ["t.js", "const a b"] ∧
    (fetch_symbols uuid_oracle "t.js" "const a = 1, b = 2;" c8_tree JsQuery
        Graph.new 0).1.nodes.map CodeNode.block_type = [.NORMAL, .CONST] ∧
    (fetch_symbols uuid_oracle "t.js" "const a = 1, b = 2;" c8_tree JsQuery
        Graph.new 0).1.edges = [{ src := 0, dst := 1 }] := by
  refine ⟨?_, by decide, by decide, by decide⟩
  intro id n hk hp
  simp only [JsQuery.get_definition, js_definition_list, hk]
  simp only [List.find?_cons, List.find?_nil]
  norm_num
  cases hpg : n.parentGrammar with
  | none => simp
  | some pg =>
      have : pg ≠ "program" := by
        intro he; exact hp (by rw [hpg, he])
      simp [this]

/-- C8, witness: the same declaration nested inside a statement block is not
recognized as a definition. -/
theorem C8_js_const_label_witness :
    JsQuery.get_definition "i" c8_nested_lexical = none :=
  C8_js_const_label.1 "i" c8_nested_lexical rfl (by decide)

/-- C9: on a childless root node that the adapter recognizes neither as a
definition nor as a call (the tree of an empty or whitespace-only file),
the outline builder yields a graph holding only the synthetic root record
(index 0, level 0, label = file path, block = file text, NORMAL) with no
edges, and the call-site collector yields the empty list. -/
theorem C9_empty_file (u : Nat → String) (path code : String) (r : SNode)
    (q : SymbolQuery) (ctr1 ctr2 : Nat)
    (hchild : r.children = SForest.fnil)
    (hdef : ∀ id, q.get_definition id r = none)
    (hcall : ∀ id, q.get_call id r = none) :
    (fetch_symbols u path code r q Graph.new ctr1).1
      = { nodes := [CodeNode.new (u ctr1) path code 0 .NORMAL 0], edges := [],
          focus_node := none } ∧
    (fetch_calls u path r q ctr2).1 = [] := by
  cases r with
  | node k t rw p fl c =>
      simp only [SNode.children] at hchild
      subst hchild
      constructor
      · simp [fetch_symbols, Graph.new, Graph.add_node, recursion_outline,
          hdef, recursion_outline_forest]
      · simp [fetch_calls, recursion_call, hcall, recursion_call_forest]

/-- C9, witness: the empty C file. -/
theorem C9_empty_file_witness :
    (fetch_symbols uuid_oracle "e.c" "" c9_tree CQuery Graph.new 0).1
      = { nodes := [CodeNode.new (uuid_oracle 0) "e.c" "" 0 .NORMAL 0],
          edges := [], focus_node := none } ∧
    (fetch_calls uuid_oracle "e.c" c9_tree CQuery 0).1 = [] :=
  C9_empty_file uuid_oracle "e.c" "" c9_tree CQuery 0 0 rfl
    (fun _ => rfl) (fun _ => rfl)

/-- C10: looking up an id that no stored record carries returns index 0, the
synthetic root's handle — Graph::node_index never signals absence. -/
theorem C10_node_index_unknown (g : Graph) (node_id : String)
    (h : ∀ n ∈ g.nodes, n.id ≠ node_id) :
    g.node_index node_id = 0 :=
  node_index_go_eq_zero node_id g.nodes 0 h

/-- C10, witness: a concrete two-record graph and the unknown id `zz`. -/
theorem C10_node_index_unknown_witness :
    c10_graph.node_index "zz" = 0 :=
  C10_node_index_unknown c10_graph "zz" (by decide)

/-- Stamping the file path commutes with erasing the uuid. -/
theorem eraseId_stamp (x : CodeNode) (path : String) :
    CodeNode.eraseId { x with file_path := path }
      = { CodeNode.eraseId x with file_path := path } := rfl

mutual
/-- Modulo the drawn uuids, the call collector on a node yields exactly the
recognized call records of the node's pre-order traversal, each stamped with
the file path. -/
theorem recursion_call_eraseId (u : Nat → String) (path : String)
    (q : SymbolQuery)
    (hq : ∀ i j m, (q.get_call i m).map CodeNode.eraseId
      = (q.get_call j m).map CodeNode.eraseId)
    (n : SNode) (ctr : Nat) :
    ((recursion_call u n path q ctr).1).map CodeNode.eraseId
      = (preorder n).filterMap (fun m => (q.get_call "" m).map
          (fun c => CodeNode.eraseId { c with file_path := path })) := by
  cases n with
  | node k t r p fl c =>
      simp only [recursion_call, preorder, List.filterMap_cons]
      have hq1 := hq (u ctr) "" (.node k t r p fl c)
      cases h1 : q.get_call (u ctr) (.node k t r p fl c) with
      | none =>
          rw [h1] at hq1
          cases h2 : q.get_call "" (.node k t r p fl c) with
          | none =>
              simp only [h2]
              simpa using recursion_call_forest_eraseId u path q hq c ctr
          | some b => rw [h2] at hq1; exact absurd hq1 (by simp)
      | some a =>
          rw [h1] at hq1
          cases h2 : q.get_call "" (.node k t r p fl c) with
          | none => rw [h2] at hq1; exact absurd hq1 (by simp)
          | some b =>
              rw [h2] at hq1
              simp only [Option.map_some', Option.some.injEq] at hq1
              simp only [h2, Option.map_some']
              rw [List.map_append]
              have hb : CodeNode.eraseId { a with file_path := path }
                  = CodeNode.eraseId { b with file_path := path } := by
                cases a with
                | mk aid alab ablk aloc apath alev abt =>
                    cases b with
                    | mk bid blab bblk bloc bpath blev bbt =>
                        simp only [CodeNode.eraseId, CodeNode.mk.injEq] at hq1 ⊢
                        simp_all
              simp only [List.map_cons, List.map_nil, hb]
              rw [recursion_call_forest_eraseId u path q hq c (ctr + 1)]
              rfl

/-- Forest version of `recursion_call_eraseId`. -/
theorem recursion_call_forest_eraseId (u : Nat → String) (path : String)
    (q : SymbolQuery)
    (hq : ∀ i j m, (q.get_call i m).map CodeNode.eraseId
      = (q.get_call j m).map CodeNode.eraseId)
    (f : SForest) (ctr : Nat) :
    ((recursion_call_forest u f path q ctr).1).map CodeNode.eraseId
      = (preorder_forest f).filterMap (fun m => (q.get_call "" m).map
          (fun c => CodeNode.eraseId { c with file_path := path })) := by
  cases f with
  | fnil => simp [recursion_call_forest, preorder_forest]
  | fcons c rest =>
      simp only [recursion_call_forest, preorder_forest, List.filterMap_append,
        List.map_append]
      rw [recursion_call_eraseId u path q hq c ctr,
        recursion_call_forest_eraseId u path q hq rest
          ((recursion_call u c path q ctr).2)]
end

/-- C5: the call collector visits every node of the tree — its output is
exactly the recognized call records of the pre-order traversal, in discovery
order, stamped with the file path — and re-running it with a different uuid
source and counter yields the same label sequence and the same count. -/
theorem C5_call_collector (q : SymbolQuery)
    (hq : ∀ i j m, (q.get_call i m).map CodeNode.eraseId
      = (q.get_call j m).map CodeNode.eraseId)
    (u1 u2 : Nat → String) (path : String) (n : SNode) (c1 c2 : Nat) :
    ((recursion_call u1 n path q c1).1).map CodeNode.eraseId
      = (preorder n).filterMap (fun m => (q.get_call "" m).map
          (fun c => CodeNode.eraseId { c with file_path := path })) ∧
    ((recursion_call u1 n path q c1).1).map CodeNode.label
      = ((recursion_call u2 n path q c2).1).map CodeNode.label ∧
    ((recursion_call u1 n path q c1).1).length
      = ((recursion_call u2 n path q c2).1).length := by
  have e1 := recursion_call_eraseId u1 path q hq n c1
  have e2 := recursion_call_eraseId u2 path q hq n c2
  have heq : ((recursion_call u1 n path q c1).1).map CodeNode.eraseId
      = ((recursion_call u2 n path q c2).1).map CodeNode.eraseId :=
    e1.trans e2.symm
  have hlab : ∀ l : List CodeNode,
      l.map CodeNode.label = (l.map CodeNode.eraseId).map CodeNode.label := by
    intro l
    rw [List.map_map]
    rfl
  refine ⟨e1, ?_, ?_⟩
  · rw [hlab, heq, ← hlab]
  · have := congrArg List.length heq
    simpa using this

/-- C5, witness: the Java input `foo(bar())` with two different uuid sources
and counters. -/
theorem C5_call_collector_witness :
    ((recursion_call uuid_oracle c5_tree "A.java" JavaQuery 0).1).map CodeNode.eraseId
      = (preorder c5_tree).filterMap (fun m => (JavaQuery.get_call "" m).map
          (fun c => CodeNode.eraseId { c with file_path := "A.java" })) ∧
    ((recursion_call uuid_oracle c5_tree "A.java" JavaQuery 0).1).map CodeNode.label
      = ((recursion_call (fun _ => "x") c5_tree "A.java" JavaQuery 7).1).map CodeNode.label ∧
    ((recursion_call uuid_oracle c5_tree "A.java" JavaQuery 0).1).length
      = ((recursion_call (fun _ => "x") c5_tree "A.java" JavaQuery 7).1).length := by
  exact C5_call_collector JavaQuery java_call_eraseId_indep uuid_oracle
    (fun _ => "x") "A.java" c5_tree 0 7

mutual
/-- Invariant of one outline-walk step on a node (see `outline_post`). -/
theorem recursion_outline_inv (u : Nat → String) (path : String)
    (q : SymbolQuery) (n : SNode) (parent_id level : Nat) (g : Graph)
    (ctr : Nat) (hp : parent_id < g.nodes.length) :
    outline_post q parent_id level g
      (recursion_outline u n parent_id path level q g ctr).1
      (nearest_enclosing_edges q n parent_id g.nodes.length) := by
  cases n with
  | node k t r p fl c =>
      cases hdef : q.get_definition (u ctr) (SNode.node k t r p fl c) with
      | none =>
          have key := recursion_outline_forest_inv u path q c parent_id
            (level + 1) g ctr hp
          unfold outline_post at key
          obtain ⟨h1, h2, es, he, hprops, hcount, hlev, hspec⟩ := key
          simp only [recursion_outline, hdef]
          unfold outline_post
          refine ⟨h1, h2, es, he, hprops, hcount, ?_, ?_⟩
          · intro hl
            exact hlev (Nat.lt_succ_of_lt hl)
          · intro hq
            have hs : (q.get_definition "" (SNode.node k t r p fl c)).isSome
                = false := by
              rw [hq "" (u ctr) (SNode.node k t r p fl c), hdef]
              rfl
            have hne : nearest_enclosing_edges q (SNode.node k t r p fl c)
                parent_id g.nodes.length
                = nearest_enclosing_forest q c parent_id g.nodes.length := by
              simp [nearest_enclosing_edges, hs]
            rw [hne]
            exact hspec hq
      | some cn =>
          simp only [recursion_outline, hdef, Graph.add_node, Graph.add_edge]
          have key := recursion_outline_forest_inv u path q c g.nodes.length
            (level + 1)
            { nodes := g.nodes ++ [{ cn with file_path := path, level := level }],
              edges := g.edges ++ [{ src := parent_id, dst := g.nodes.length }],
              focus_node := g.focus_node } (ctr + 1) (by simp)
          unfold outline_post at key
          dsimp only at key
          simp only [List.length_append, List.length_cons, List.length_nil,
            Nat.add_zero] at key
          obtain ⟨b1, b2, es2, be, bprops, bcount, blev, bspec⟩ := key
          unfold outline_post
          refine ⟨by omega, ?_,
            { src := parent_id, dst := g.nodes.length } :: es2, ?_, ?_, ?_, ?_, ?_⟩
          · intro i hi
            rw [b2 i (by omega)]
            exact List.getD_append _ _ _ _ hi
          · rw [be]
            simp
          · intro e he
            rcases List.mem_cons.mp he with h | h
            · subst h
              refine ⟨Or.inl rfl, hp, Nat.le_refl _, ?_⟩
              dsimp only
              omega
            · obtain ⟨d1, d2, d3, d4⟩ := bprops e h
              refine ⟨Or.inr ?_, d2, by omega, d4⟩
              rcases d1 with h1 | h1
              · omega
              · omega
          · intro i hi1 hi2
            rw [List.filter_cons]
            by_cases hc : i = g.nodes.length
            · subst hc
              rw [if_pos (by simp)]
              have hnil : es2.filter (fun e => e.dst == g.nodes.length) = [] :=
                List.filter_eq_nil_iff.mpr (fun e he' => by
                  have hd := (bprops e he').2.2.1
                  simp only [beq_iff_eq]
                  omega)
              simp [hnil]
            · rw [if_neg (by simp only [beq_iff_eq]; omega)]
              exact bcount i (by omega) hi2
          · intro hl e he
            rcases List.mem_cons.mp he with h | h
            · subst h
              have hsrc : (recursion_outline_forest u c g.nodes.length path
                  (level + 1) q
                  { nodes := g.nodes ++ [{ cn with file_path := path, level := level }],
                    edges := g.edges ++ [{ src := parent_id, dst := g.nodes.length }],
                    focus_node := g.focus_node }
                  (ctr + 1)).1.nodes.getD parent_id CodeNode.default
                  = g.nodes.getD parent_id CodeNode.default := by
                rw [b2 parent_id (by omega)]
                exact List.getD_append _ _ _ _ hp
              have hdst : (recursion_outline_forest u c g.nodes.length path
                  (level + 1) q
                  { nodes := g.nodes ++ [{ cn with file_path := path, level := level }],
                    edges := g.edges ++ [{ src := parent_id, dst := g.nodes.length }],
                    focus_node := g.focus_node }
                  (ctr + 1)).1.nodes.getD g.nodes.length CodeNode.default
                  = { cn with file_path := path, level := level } := by
                rw [b2 g.nodes.length (by omega)]
                rw [List.getD_append_right _ _ _ _ (Nat.le_refl _)]
                simp
              dsimp only
              rw [hsrc, hdst]
              simpa using hl
            · have hmid2 : ((g.nodes ++
                  [{ cn with file_path := path, level := level }]).getD
                    g.nodes.length CodeNode.default).level < level + 1 := by
                rw [List.getD_append_right _ _ _ _ (Nat.le_refl _)]
                simp
              exact blev hmid2 e h
          · intro hq
            have hs : (q.get_definition "" (SNode.node k t r p fl c)).isSome
                = true := by
              rw [hq "" (u ctr) (SNode.node k t r p fl c), hdef]
              rfl
            obtain ⟨bs1, bs2⟩ := bspec hq
            constructor
            · simp only [nearest_enclosing_edges, hs, if_true, List.map_cons]
              rw [bs1]
            · simp only [nearest_enclosing_edges, hs, if_true]
              exact bs2

/-- Invariant of the outline walk on a forest of children. -/
theorem recursion_outline_forest_inv (u : Nat → String) (path : String)
    (q : SymbolQuery) (f : SForest) (parent_id level : Nat) (g : Graph)
    (ctr : Nat) (hp : parent_id < g.nodes.length) :
    outline_post q parent_id level g
      (recursion_outline_forest u f parent_id path level q g ctr).1
      (nearest_enclosing_forest q f parent_id g.nodes.length) := by
  cases f with
  | fnil =>
      simp only [recursion_outline_forest, nearest_enclosing_forest]
      unfold outline_post
      refine ⟨Nat.le_refl _, fun i hi => rfl, [], by simp, by simp, ?_,
        by simp, fun hq => ⟨by simp, by simp⟩⟩
      intro i hi1 hi2
      omega
  | fcons c rest =>
      have keya := recursion_outline_inv u path q c parent_id level g ctr hp
      unfold outline_post at keya
      obtain ⟨a1, a2, es1, ae, aprops, acount, alev, aspec⟩ := keya
      have keyb := recursion_outline_forest_inv u path q rest parent_id level
        (recursion_outline u c parent_id path level q g ctr).1
        (recursion_outline u c parent_id path level q g ctr).2
        (Nat.lt_of_lt_of_le hp a1)
      unfold outline_post at keyb
      obtain ⟨b1, b2, es2, be, bprops, bcount, blev, bspec⟩ := keyb
      simp only [recursion_outline_forest, nearest_enclosing_forest]
      unfold outline_post
      refine ⟨Nat.le_trans a1 b1, ?_, es1 ++ es2, ?_, ?_, ?_, ?_, ?_⟩
      · intro i hi
        rw [b2 i (Nat.lt_of_lt_of_le hi a1), a2 i hi]
      · rw [be, ae, List.append_assoc]
      · intro e he
        rcases List.mem_append.mp he with h | h
        · obtain ⟨d1, d2, d3, d4⟩ := aprops e h
          exact ⟨d1, d2, d3, Nat.lt_of_lt_of_le d4 b1⟩
        · obtain ⟨d1, d2, d3, d4⟩ := bprops e h
          refine ⟨?_, d2, Nat.le_trans a1 d3, d4⟩
          rcases d1 with h1 | h1
          · exact Or.inl h1
          · exact Or.inr (Nat.le_trans a1 h1)
      · intro i hi1 hi2
        rw [List.filter_append, List.length_append]
        rcases Nat.lt_or_ge i (recursion_outline u c parent_id path level q g
            ctr).1.nodes.length with hc | hc
        · have e1 := acount i hi1 hc
          have hnil : es2.filter (fun e => e.dst == i) = [] :=
            List.filter_eq_nil_iff.mpr (fun e he' => by
              have hd := (bprops e he').2.2.1
              simp only [beq_iff_eq]
              omega)
          rw [e1, hnil]
          rfl
        · have e2 := bcount i hc hi2
          have hnil : es1.filter (fun e => e.dst == i) = [] :=
            List.filter_eq_nil_iff.mpr (fun e he' => by
              have hd := (aprops e he').2.2.2
              simp only [beq_iff_eq]
              omega)
          rw [e2, hnil]
          rfl
      · intro hl e he
        have hl1 : (((recursion_outline u c parent_id path level q g
            ctr).1).nodes.getD parent_id CodeNode.default).level < level := by
          rw [a2 parent_id hp]
          exact hl
        rcases List.mem_append.mp he with h | h
        · have hres := alev hl e h
          obtain ⟨d1, d2, d3, d4⟩ := aprops e h
          rw [b2 e.src (Nat.lt_trans d2 d4), b2 e.dst d4]
          exact hres
        · exact blev hl1 e h
      · intro hq
        obtain ⟨as1, as2⟩ := aspec hq
        obtain ⟨bs1, bs2⟩ := bspec hq
        constructor
        · rw [List.map_append, as2, as1, bs1]
        · rw [as2, bs2]
end

/-- C1, counterexample: on `fn outer() { fn inner() { } }` the inner function
sits under the outer function's `block` wrapper; its record gets level 3
while its parent record (the outer function, reached by edge 1→2) has level
1, so the level of a non-root record is not its parent's level plus one and
the transparent wrapper did increase the level. -/
theorem C1_counterexample :
    (fetch_symbols uuid_oracle "m.rs" "fn outer() \x7b fn inner() \x7b \x7d \x7d"
        c1_tree RustQuery Graph.new 0).1.nodes.map CodeNode.level = [0, 1, 3] ∧
    (fetch_symbols uuid_oracle "m.rs" "fn outer() \x7b fn inner() \x7b \x7d \x7d"
        c1_tree RustQuery Graph.new 0).1.edges
      = [{ src := 0, dst := 1 }, { src := 1, dst := 2 }] ∧
    ((fetch_symbols uuid_oracle "m.rs" "fn outer() \x7b fn inner() \x7b \x7d \x7d"
        c1_tree RustQuery Graph.new 0).1.nodes.getD 2 CodeNode.default).level
      ≠ ((fetch_symbols uuid_oracle "m.rs" "fn outer() \x7b fn inner() \x7b \x7d \x7d"
        c1_tree RustQuery Graph.new 0).1.nodes.getD 1 CodeNode.default).level + 1 := by
  decide

/-- C1, amended: the walk recurses into the children with `level + 1` whether
or not the current node was recognized, so along every edge of the produced
graph the child record's level exceeds the parent record's level by at least
one — it equals the syntax-tree depth, which can jump past parent + 1 under
transparent wrapper nodes.  (Stated for a root node the adapter does not
recognize, which holds for every shipped adapter on every real tree root.) -/
theorem C1_amended_levels (u : Nat → String) (path code : String)
    (root_node : SNode) (q : SymbolQuery) (ctr : Nat)
    (hroot : ∀ id, q.get_definition id root_node = none) :
    ∀ e ∈ (fetch_symbols u path code root_node q Graph.new ctr).1.edges,
      ((fetch_symbols u path code root_node q Graph.new ctr).1.nodes.getD e.src
          CodeNode.default).level + 1
        ≤ ((fetch_symbols u path code root_node q Graph.new ctr).1.nodes.getD
          e.dst CodeNode.default).level := by
  cases root_node with
  | node k t r p fl c =>
      have key := recursion_outline_forest_inv u path q c 0 1
        { nodes := [CodeNode.new (u ctr) path code 0 .NORMAL 0], edges := [],
          focus_node := none } (ctr + 1) (by simp)
      unfold outline_post at key
      obtain ⟨h1, h2, es, he, hprops, hcount, hlev, hspec⟩ := key
      intro e heE
      simp only [fetch_symbols, Graph.new, Graph.add_node, List.nil_append,
        recursion_outline, hroot (u (ctr + 1)), Nat.zero_add] at heE ⊢
      have hee : e ∈ es := by
        rw [he] at heE
        simpa using heE
      have hres := hlev (by simp [CodeNode.new]) e hee
      omega

/-- C1, witness: the amended level bound applied to the edge from the outer
to the inner function of `fn outer() { fn inner() { } }`. -/
theorem C1_amended_levels_witness :
    ((fetch_symbols uuid_oracle "m.rs" "fn outer() \x7b fn inner() \x7b \x7d \x7d"
        c1_tree RustQuery Graph.new 0).1.nodes.getD 1 CodeNode.default).level + 1
      ≤ ((fetch_symbols uuid_oracle "m.rs" "fn outer() \x7b fn inner() \x7b \x7d \x7d"
        c1_tree RustQuery Graph.new 0).1.nodes.getD 2 CodeNode.default).level :=
  C1_amended_levels uuid_oracle "m.rs" "fn outer() \x7b fn inner() \x7b \x7d \x7d"
    c1_tree RustQuery 0 (fun _ => rfl) { src := 1, dst := 2 } (by decide)

/-- C4: after any run of the outline builder on a fresh graph the edge set is
a rooted tree — every edge points strictly forward (so there are no cycles
and the root at index 0 has no incoming edge) and every non-root record has
exactly one incoming edge — and, whenever recognition does not depend on the
drawn uuid, the edges are exactly the nearest-enclosing-definition edges the
specification describes. -/
theorem C4_rooted_tree (u : Nat → String) (path code : String)
    (root_node : SNode) (q : SymbolQuery) (ctr : Nat) :
    rooted_tree_graph (fetch_symbols u path code root_node q Graph.new ctr).1 ∧
    ((∀ i j m, (q.get_definition i m).isSome = (q.get_definition j m).isSome) →
      (fetch_symbols u path code root_node q Graph.new ctr).1.edges.map
          (fun e => (e.src, e.dst))
        = (nearest_enclosing_edges q root_node 0 1).1) := by
  have key := recursion_outline_inv u path q root_node 0 0
    { nodes := [CodeNode.new (u ctr) path code 0 .NORMAL 0], edges := [],
      focus_node := none } (ctr + 1) (by simp)
  unfold outline_post at key
  dsimp only at key
  simp only [List.length_cons, List.length_nil, Nat.zero_add] at key
  obtain ⟨h1, h2, es, he, hprops, hcount, hlev, hspec⟩ := key
  simp only [fetch_symbols, Graph.new, Graph.add_node, List.nil_append]
  constructor
  · unfold rooted_tree_graph
    refine ⟨?_, ?_, ?_⟩
    · intro e heE
      have hee : e ∈ es := by
        rw [he] at heE
        simpa using heE
      obtain ⟨d1, d2, d3, d4⟩ := hprops e hee
      exact ⟨d2, d4⟩
    · have hnil : ((recursion_outline u root_node 0 path 0 q
          { nodes := [CodeNode.new (u ctr) path code 0 .NORMAL 0], edges := [],
            focus_node := none } (ctr + 1)).1.edges).filter
            (fun e => e.dst == 0) = [] := by
        rw [he]
        simp only [List.nil_append]
        exact List.filter_eq_nil_iff.mpr (fun e hee => by
          have hd := (hprops e hee).2.2.1
          simp only [beq_iff_eq]
          omega)
      rw [hnil]
      rfl
    · intro i hi1 hi2
      rw [he]
      simp only [List.nil_append]
      exact hcount i hi1 hi2
  · intro hq
    obtain ⟨s1, s2⟩ := hspec hq
    rw [he]
    simp only [List.nil_append]
    exact s1

/-- C4, witness: the rooted-tree invariant and the nearest-enclosing edge
refinement on the concrete C input `int add(int a,int b){return a+b;}`. -/
theorem C4_rooted_tree_witness :
    rooted_tree_graph (fetch_symbols uuid_oracle "test.c"
      "int add(int a,int b)\x7breturn a+b;\x7d" c4_tree CQuery Graph.new 0).1 ∧
    (fetch_symbols uuid_oracle "test.c" "int add(int a,int b)\x7breturn a+b;\x7d"
        c4_tree CQuery Graph.new 0).1.edges.map (fun e => (e.src, e.dst))
      = [(0, 1)] := by
  have h := C4_rooted_tree uuid_oracle "test.c"
    "int add(int a,int b)\x7breturn a+b;\x7d" c4_tree CQuery 0
  exact ⟨h.1, (h.2 (fun i j m => cquery_definition_isSome_indep i j m)).trans
    (by decide)⟩
